import Mathlib

/-!
Shallow embedding of the bidirectional-conversion core of the agent-bridge
repository, and proofs about it.

Conventions used throughout:
* File contents are modelled as `List Char` (Python `str`).
* `re.sub(r"^---\n.*?\n---\n*", "", s, flags=DOTALL)` and
  `re.match(r"^---\n(.*?)\n---\n", s, DOTALL)` are modelled by explicit
  first-occurrence search (`firstOcc`), matching the leftmost-shortest
  semantics of the non-greedy regexes used by the source.
* Timestamps (file mtimes, the manifest's `generated_at`) are modelled as
  `Int`; only their order is ever used by the source.
* `yaml.safe_load` / `yaml.dump` results are passed in as parameters where a
  converter only forwards them; the surrounding control flow is modelled
  exactly.
-/

/-- Python `str.strip()` whitespace set (space, tab, newline, CR, VT, FF). -/
def pySpace (c : Char) : Bool :=
  c == ' ' || c == '\t' || c == '\n' || c == '\r' || c == '\x0b' || c == '\x0c'

/-- Python `s.strip()` on a character list: drop whitespace from both ends. -/
def pyStrip (s : List Char) : List Char :=
  ((s.dropWhile pySpace).reverse.dropWhile pySpace).reverse

/-- Python `s.strip(ch)`: drop the character `ch` from both ends. -/
def pyStripChar (ch : Char) (s : List Char) : List Char :=
  ((s.dropWhile (· == ch)).reverse.dropWhile (· == ch)).reverse

/-- Python `s.rstrip(ch)`: drop the character `ch` from the right end. -/
def pyRStripChar (ch : Char) (s : List Char) : List Char :=
  (s.reverse.dropWhile (· == ch)).reverse

/-- The opening frontmatter delimiter `---\n` consumed by `^---\n`. -/
def openFM : List Char := ['-', '-', '-', '\n']

/-- The separator `\n---` searched for by the non-greedy `.*?\n---`. -/
def sepNL : List Char := ['\n', '-', '-', '-']

/-- The closing delimiter `\n---\n` of the regex `^---\n(.*?)\n---\n`. -/
def closeFM : List Char := ['\n', '-', '-', '-', '\n']

/-- Index of the first occurrence of `pat` in `s` (leftmost match),
modelling the backtracking search a non-greedy regex performs. -/
def firstOcc (pat : List Char) : List Char → Option Nat
  | [] => if pat.isPrefixOf ([] : List Char) then some 0 else none
  | c :: rest =>
      if pat.isPrefixOf (c :: rest) then some 0
      else (firstOcc pat rest).map (fun n => n + 1)

/-- `re.sub(r"^---\n.*?\n---\n*", "", s, flags=re.DOTALL)`: if `s` opens with
`---\n`, remove everything up to and including the earliest following
`\n---` plus any run of newlines after it; otherwise return `s` unchanged.
This is the body-extraction step shared by `convert_agent_to_copilot`
(line 144) and Kiro's `extract_agent_metadata` (line 135). -/
def stripFMSub (s : List Char) : List Char :=
  if openFM.isPrefixOf s then
    match firstOcc sepNL (s.drop 4) with
    | some j => ((s.drop 4).drop (j + 4)).dropWhile (· == '\n')
    | none => s
  else s

/-- `re.match(r"^---\n(.*?)\n---\n", s, re.DOTALL)`: returns the captured
group and the match end position, or `none` when the block is absent. -/
def matchFM (s : List Char) : Option (List Char × Nat) :=
  if openFM.isPrefixOf s then
    match firstOcc closeFM (s.drop 4) with
    | some j => some ((s.drop 4).take j, j + 9)
    | none => none
  else none

/-!
## Capture classification (`services/capture_service.py`)

`_determine_status(captured, meta, project_path)` classifies one capture
candidate.  The manifest dictionary is modelled by `BridgeMeta`:
`none` at the call site covers both a missing/unreadable manifest and a
falsy (empty) one; `hasFileMap` models `"file_map" in meta`;
`fileMapKeys` the key set of `meta["file_map"]`; and `generatedAt` models
`meta.get("generated_at")` composed with `datetime.fromisoformat`:
`none` = key absent or empty string (falsy), `some none` = present but
unparseable (`ValueError`), `some (some t)` = parses to timestamp `t`.
The candidate's `relative_to` result and `stat().st_mtime` are likewise
`Option`-valued inputs (`none` = `ValueError` / unreadable mtime). -/
structure BridgeMeta where
  hasFileMap : Bool
  fileMapKeys : List String
  generatedAt : Option (Option Int)

/-- Shallow embedding of `_determine_status` (capture_service.py lines 39-76). -/
def determine_status (meta : Option BridgeMeta) (ideRel : Option String)
    (ideMtime : Option Int) : String :=
  match meta with
  | none => "new"
  | some m =>
    if !m.hasFileMap then "new"
    else
      match ideRel with
      | none => "new"
      | some p =>
        if !(m.fileMapKeys.contains p) then "new"
        else
          match ideMtime with
          | none => "new"
          | some mt =>
            match m.generatedAt with
            | some (some ts) => if ts < mt then "modified" else "unchanged"
            | some none => "unchanged"
            | none => "unchanged"

/-- C2: with a manifest whose `generated_at` parses to `t0`, a candidate
absent from `file_map` is `new`; one present with mtime after `t0` is
`modified`; one present with mtime at or before `t0` is `unchanged`. -/
theorem c2_classification (m : BridgeMeta) (p : String) (mt t0 : Int)
    (hfm : m.hasFileMap = true) (hg : m.generatedAt = some (some t0)) :
    (m.fileMapKeys.contains p = false →
      determine_status (some m) (some p) (some mt) = "new")
    ∧ (m.fileMapKeys.contains p = true → t0 < mt →
      determine_status (some m) (some p) (some mt) = "modified")
    ∧ (m.fileMapKeys.contains p = true → mt ≤ t0 →
      determine_status (some m) (some p) (some mt) = "unchanged") := by
  refine ⟨fun hc => ?_, fun hc hlt => ?_, fun hc hle => ?_⟩
  · have hc' : p ∉ m.fileMapKeys := by simpa using hc
    simp [determine_status, hfm, hg, hc']
  · have hc' : p ∈ m.fileMapKeys := by simpa using hc
    simp [determine_status, hfm, hg, hc', hlt]
  · have hc' : p ∈ m.fileMapKeys := by simpa using hc
    have : ¬ t0 < mt := by omega
    simp [determine_status, hfm, hg, hc', this]

/-- Witness for C2 at a concrete manifest and concrete mtimes. -/
theorem c2_classification_witness :
    determine_status (some ⟨true, ["a/b.md"], some (some 100)⟩) (some "zzz") (some 99) = "new"
    ∧ determine_status (some ⟨true, ["a/b.md"], some (some 100)⟩) (some "a/b.md") (some 101) = "modified"
    ∧ determine_status (some ⟨true, ["a/b.md"], some (some 100)⟩) (some "a/b.md") (some 99) = "unchanged" := by
  refine ⟨?_, ?_, ?_⟩
  · exact (c2_classification ⟨true, ["a/b.md"], some (some 100)⟩ "zzz" 99 100 rfl rfl).1 (by decide)
  · exact (c2_classification ⟨true, ["a/b.md"], some (some 100)⟩ "a/b.md" 101 100 rfl rfl).2.1 (by decide) (by decide)
  · exact (c2_classification ⟨true, ["a/b.md"], some (some 100)⟩ "a/b.md" 99 100 rfl rfl).2.2 (by decide) (by decide)

/-- C10: for a candidate present in `file_map`, an absent or unparseable
`generated_at` yields `unchanged` (the mtime comparison is skipped), and an
unreadable mtime yields `new` despite the path being mapped. -/
theorem c10_classification_fallbacks (m : BridgeMeta) (p : String) (mt : Int)
    (hfm : m.hasFileMap = true) (hc : m.fileMapKeys.contains p = true) :
    (m.generatedAt = none →
      determine_status (some m) (some p) (some mt) = "unchanged")
    ∧ (m.generatedAt = some none →
      determine_status (some m) (some p) (some mt) = "unchanged")
    ∧ determine_status (some m) (some p) none = "new" := by
  have hc' : p ∈ m.fileMapKeys := by simpa using hc
  refine ⟨fun hg => ?_, fun hg => ?_, ?_⟩
  · simp [determine_status, hfm, hc', hg]
  · simp [determine_status, hfm, hc', hg]
  · simp [determine_status, hfm, hc']

/-- Witness for C10 at a concrete manifest. -/
theorem c10_classification_fallbacks_witness :
    determine_status (some ⟨true, ["k.json"], none⟩) (some "k.json") (some 500) = "unchanged"
    ∧ determine_status (some ⟨true, ["k.json"], some none⟩) (some "k.json") (some 500) = "unchanged"
    ∧ determine_status (some ⟨true, ["k.json"], some (some 3)⟩) (some "k.json") none = "new" := by
  refine ⟨?_, ?_, ?_⟩
  · exact (c10_classification_fallbacks ⟨true, ["k.json"], none⟩ "k.json" 500 rfl (by decide)).1 rfl
  · exact (c10_classification_fallbacks ⟨true, ["k.json"], some none⟩ "k.json" 500 rfl (by decide)).2.1 rfl
  · exact (c10_classification_fallbacks ⟨true, ["k.json"], some (some 3)⟩ "k.json" 0 rfl (by decide)).2.2

/-!
## Capability registry (`core/agent_registry.py`, `core/types.py`)

`AgentRole` carries the fields the converters consult.  Defaults follow the
dataclass defaults in `core/types.py` (`can_read=True`, `can_write=False`,
`can_execute=False`, `can_search=True`, `allowed_commands=[]`,
`allowed_paths=["**/*"]`). Display-only fields (name, description, category,
hidden, delegation) are omitted: no claim consults them. -/
structure AgentRole where
  slug : String
  can_read : Bool := true
  can_write : Bool := false
  can_execute : Bool := false
  can_search : Bool := true
  allowed_commands : List String := []
  allowed_paths : List String := ["**/*"]

/-- The static `AGENT_ROLES` table from `core/agent_registry.py`.
Fields in order: slug, can_read, can_write, can_execute, can_search,
allowed_commands, allowed_paths. -/
def AGENT_ROLES : List (String × AgentRole) := [
  ("orchestrator", ⟨"orchestrator", true, false, false, true,
    ["git status", "git log *"], ["**/*"]⟩),
  ("frontend-specialist", ⟨"frontend-specialist", true, true, true, true,
    ["npm *", "npx *", "yarn *", "pnpm *", "node *", "tsc *",
     "eslint *", "prettier *", "git status", "git diff *", "git log *"],
    ["src/**", "components/**", "pages/**", "app/**", "public/**", "styles/**"]⟩),
  ("backend-specialist", ⟨"backend-specialist", true, true, true, true,
    ["npm *", "node *", "python *", "pip *", "docker *",
     "docker-compose *", "git status", "git diff *", "git log *", "curl *", "wget *"],
    ["src/**", "api/**", "server/**", "lib/**", "services/**"]⟩),
  ("project-planner", ⟨"project-planner", true, false, false, true,
    ["git log *", "git status", "find *", "tree *"], ["**/*"]⟩),
  ("explorer-agent", ⟨"explorer-agent", true, false, false, true,
    ["git log *", "git status", "find *", "grep *", "tree *", "cat *", "head *", "tail *"],
    ["**/*"]⟩),
  ("security-auditor", ⟨"security-auditor", true, false, false, true,
    ["npm audit", "yarn audit", "git log *", "git diff *", "grep *", "find *"], ["**/*"]⟩),
  ("penetration-tester", ⟨"penetration-tester", true, false, false, true,
    ["git log *", "git diff *"], ["**/*"]⟩),
  ("test-engineer", ⟨"test-engineer", true, true, true, true,
    ["npm test *", "npm run test *", "npx jest *", "npx vitest *",
     "npx playwright *", "npx cypress *", "python -m pytest *", "git status", "git diff *"],
    ["tests/**", "test/**", "__tests__/**", "*.test.*", "*.spec.*"]⟩),
  ("debugger", ⟨"debugger", true, true, true, true,
    ["node --inspect *", "python -m pdb *", "npm run *", "node *",
     "git diff *", "git log *", "git blame *"], ["**/*"]⟩),
  ("database-architect", ⟨"database-architect", true, true, true, true,
    ["npx prisma *", "npx drizzle-kit *", "psql *", "mysql *", "sqlite3 *",
     "git status", "git diff *"],
    ["prisma/**", "drizzle/**", "migrations/**", "db/**", "schema/**"]⟩),
  ("devops-engineer", ⟨"devops-engineer", true, true, true, true,
    ["docker *", "docker-compose *", "kubectl *", "helm *", "terraform *",
     "aws *", "gcloud *", "az *", "git *"],
    [".github/**", "docker/**", "k8s/**", "terraform/**", "infra/**"]⟩),
  ("documentation-writer", ⟨"documentation-writer", true, true, false, true,
    ["git status", "git log *", "npx typedoc *", "npx jsdoc *"],
    ["docs/**", "*.md", "README*", "CHANGELOG*", "*.mdx"]⟩),
  ("performance-optimizer", ⟨"performance-optimizer", true, true, true, true,
    ["npx lighthouse *", "npm run build *", "node --prof *", "python -m cProfile *"],
    ["**/*"]⟩),
  ("mobile-developer", ⟨"mobile-developer", true, true, true, true,
    ["npm *", "npx *", "yarn *", "npx react-native *", "npx expo *",
     "git status", "git diff *"],
    ["src/**", "app/**", "android/**", "ios/**"]⟩),
  ("game-developer", ⟨"game-developer", true, true, true, true, [], ["**/*"]⟩),
  ("product-manager", ⟨"product-manager", true, false, false, true, [], ["**/*"]⟩),
  ("product-owner", ⟨"product-owner", true, false, false, true, [], ["**/*"]⟩),
  ("seo-specialist", ⟨"seo-specialist", true, true, false, true, [], ["**/*"]⟩),
  ("qa-automation-engineer", ⟨"qa-automation-engineer", true, true, true, true,
    ["npm test *", "npx jest *", "npx playwright *", "git status", "git diff *"], ["**/*"]⟩),
  ("code-archaeologist", ⟨"code-archaeologist", true, false, false, true, [], ["**/*"]⟩)]

/-- `get_agent_role(slug)` — pure dictionary lookup. -/
def get_agent_role (slug : String) : Option AgentRole :=
  AGENT_ROLES.lookup slug

/-- `_role_to_copilot_tools` (converters/_copilot_impl.py lines 18-37). -/
def role_to_copilot_tools (slug : String) : List String :=
  match get_agent_role slug with
  | none => ["search/codebase", "edit/editFiles", "web/fetch"]
  | some role =>
    let tools :=
      (if role.can_search then ["search/codebase", "search/usages"] else [])
      ++ (if role.can_write then ["edit/editFiles"] else [])
      ++ (if role.can_read then ["web/fetch"] else [])
      ++ (if role.can_execute then ["read/terminalLastCommand"] else [])
    let tools :=
      if role.slug == "project-planner" && !(tools.contains "web/githubRepo") then
        tools ++ ["web/githubRepo"]
      else tools
    if tools.isEmpty then ["search/codebase", "edit/editFiles", "web/fetch"] else tools

/-- The dict returned by `_role_to_kiro_config` (converters/_kiro_impl.py
lines 60-93); `denyWrite := false` models the key being absent. -/
structure KiroConfig where
  tools : List String
  allowedCommands : List String
  allowedPaths : List String
  denyWrite : Bool := false

/-- `_role_to_kiro_config` (converters/_kiro_impl.py lines 60-93). -/
def role_to_kiro_config (slug : String) : KiroConfig :=
  match get_agent_role slug with
  | none =>
    { tools := ["read", "search"],
      allowedCommands := ["git status", "git log *"],
      allowedPaths := ["**/*"] }
  | some role =>
    let tools :=
      (if role.can_read then ["read"] else [])
      ++ (if role.can_write then ["write"] else [])
      ++ (if role.can_execute then ["shell"] else [])
      ++ (if role.can_search then ["search"] else [])
    let tools :=
      if role.slug == "documentation-writer" || role.slug == "explorer-agent"
          || role.slug == "project-planner" || role.slug == "orchestrator" then
        tools ++ ["knowledge"]
      else tools
    { tools := tools,
      allowedCommands :=
        if role.allowed_commands.isEmpty then ["git status", "git log *"]
        else role.allowed_commands,
      allowedPaths := role.allowed_paths,
      denyWrite := !role.can_write }

/-- C6 counterexample: for the unregistered slug `zz-unregistered-agent`, the
Copilot fallback tool list contains `edit/editFiles` — the tool the Copilot
converter emits exactly when `role.can_write` holds, i.e. a write capability —
while Kiro's fallback is `read`+`search`.  The fallback is therefore neither
"read and search only" nor identical across targets, refuting the claim as
stated. -/
theorem c6_counterexample :
    get_agent_role "zz-unregistered-agent" = none
    ∧ role_to_copilot_tools "zz-unregistered-agent"
        = ["search/codebase", "edit/editFiles", "web/fetch"]
    ∧ "edit/editFiles" ∈ role_to_copilot_tools "zz-unregistered-agent"
    ∧ (role_to_kiro_config "zz-unregistered-agent").tools = ["read", "search"] := by
  refine ⟨rfl, rfl, ?_, rfl⟩
  decide

/-- C6 amended: for every slug absent from the registry, the Kiro fallback
grants `read` and `search` only, but the Copilot fallback is the fixed list
`search/codebase, edit/editFiles, web/fetch`, which includes the
write-capability tool `edit/editFiles`; the per-target fallbacks are thus
fixed but not a shared read+search-only policy. -/
theorem c6_amended_fallbacks (slug : String) (h : get_agent_role slug = none) :
    (role_to_kiro_config slug).tools = ["read", "search"]
    ∧ (role_to_kiro_config slug).denyWrite = false
    ∧ role_to_copilot_tools slug = ["search/codebase", "edit/editFiles", "web/fetch"]
    ∧ "edit/editFiles" ∈ role_to_copilot_tools slug := by
  refine ⟨?_, ?_, ?_, ?_⟩ <;> simp [role_to_kiro_config, role_to_copilot_tools, h]

/-- Witness for C6 amended at a concrete unregistered slug. -/
theorem c6_amended_fallbacks_witness :
    (role_to_kiro_config "not-a-known-agent").tools = ["read", "search"]
    ∧ "edit/editFiles" ∈ role_to_copilot_tools "not-a-known-agent" :=
  ⟨(c6_amended_fallbacks "not-a-known-agent" rfl).1,
   (c6_amended_fallbacks "not-a-known-agent" rfl).2.2.2⟩

/-!
## Skill identifier normalization (`converters/_copilot_impl.py` lines 179-183)

```
normalized_name = re.sub(r"[^a-z0-9-]", "-", normalized_name.lower())
normalized_name = re.sub(r"-+", "-", normalized_name).strip("-")
if len(normalized_name) > 64:
    normalized_name = normalized_name[:64].rstrip("-")
```
-/

/-- ASCII case folding of Python `str.lower()` (non-ASCII characters are left
unchanged; the following substitution maps every non-`[a-z0-9-]` character to
a hyphen, so the composition agrees with the source on all inputs whose
lowercase form is ASCII). -/
def pyToLower (c : Char) : Char :=
  if 'A' ≤ c ∧ c ≤ 'Z' then Char.ofNat (c.toNat + 32) else c

/-- Membership in the regex class `[a-z0-9-]`. -/
def isSkillChar (c : Char) : Bool :=
  (97 ≤ c.toNat && c.toNat ≤ 122) || (48 ≤ c.toNat && c.toNat ≤ 57) || c == '-'

/-- `re.sub(r"-+", "-", s)`: collapse every maximal run of hyphens to one. -/
def collapseHyphens : List Char → List Char
  | [] => []
  | [c] => [c]
  | c :: d :: rest =>
      if c == '-' && d == '-' then collapseHyphens (d :: rest)
      else c :: collapseHyphens (d :: rest)

/-- The full identifier normalization of `convert_skill_to_copilot`. -/
def normalize_skill_name (name : List Char) : List Char :=
  let s1 := (name.map pyToLower).map (fun c => if isSkillChar c then c else '-')
  let s2 := collapseHyphens s1
  let s3 := pyStripChar '-' s2
  if 64 < s3.length then pyRStripChar '-' (s3.take 64) else s3

theorem collapseHyphens_head (t : List Char) :
    ∀ c, (collapseHyphens (c :: t)).head? = some c := by
  induction t with
  | nil => intro c; rfl
  | cons d rest ih =>
    intro c
    by_cases h : c == '-' && d == '-'
    · have hc : c = '-' := by
        have := (Bool.and_eq_true _ _).mp h
        exact beq_iff_eq.mp this.1
      have hd : d = '-' := by
        have := (Bool.and_eq_true _ _).mp h
        exact beq_iff_eq.mp this.2
      rw [show collapseHyphens (c :: d :: rest) = collapseHyphens (d :: rest) by
        simp [collapseHyphens, h]]
      rw [ih d, hc, hd]
    · rw [show collapseHyphens (c :: d :: rest) = c :: collapseHyphens (d :: rest) by
        simp [collapseHyphens, h]]
      rfl

/-- No two consecutive hyphens survive `collapseHyphens`. -/
theorem collapseHyphens_chain (t : List Char) :
    List.Chain' (fun a b => ¬ (a = '-' ∧ b = '-')) (collapseHyphens t) := by
  induction t with
  | nil => simp [collapseHyphens]
  | cons c rest ih =>
    cases rest with
    | nil => simp [collapseHyphens]
    | cons d rest2 =>
      by_cases h : c == '-' && d == '-'
      · rw [show collapseHyphens (c :: d :: rest2) = collapseHyphens (d :: rest2) by
          simp [collapseHyphens, h]]
        exact ih
      · rw [show collapseHyphens (c :: d :: rest2) = c :: collapseHyphens (d :: rest2) by
          simp [collapseHyphens, h]]
        rw [List.chain'_cons']
        refine ⟨?_, ih⟩
        intro y hy
        rw [collapseHyphens_head rest2 d] at hy
        have hyd : d = y := by simpa using hy
        subst hyd
        intro ⟨h1, h2⟩
        subst h1; subst h2
        simp at h

theorem collapseHyphens_subset (t : List Char) :
    ∀ a, a ∈ collapseHyphens t → a ∈ t := by
  induction t with
  | nil => intro a ha; simp [collapseHyphens] at ha
  | cons c rest ih =>
    cases rest with
    | nil => intro a ha; simpa [collapseHyphens] using ha
    | cons d rest2 =>
      intro a ha
      by_cases h : c == '-' && d == '-'
      · rw [show collapseHyphens (c :: d :: rest2) = collapseHyphens (d :: rest2) by
          simp [collapseHyphens, h]] at ha
        exact List.mem_cons_of_mem c (ih a ha)
      · rw [show collapseHyphens (c :: d :: rest2) = c :: collapseHyphens (d :: rest2) by
          simp [collapseHyphens, h]] at ha
        rcases List.mem_cons.mp ha with h1 | h2
        · exact h1 ▸ List.mem_cons_self a _
        · exact List.mem_cons_of_mem c (ih a h2)

/-- The head of a `dropWhile` result never satisfies the predicate. -/
theorem dropWhile_head_false (p : Char → Bool) (l : List Char) (c : Char)
    (h : (l.dropWhile p).head? = some c) : p c = false := by
  induction l with
  | nil => simp at h
  | cons d rest ih =>
    rw [List.dropWhile_cons] at h
    by_cases hd : p d = true
    · rw [if_pos hd] at h; exact ih h
    · rw [if_neg hd] at h
      have : d = c := by simpa using h
      subst this
      simpa using hd

/-- Right-stripping yields a prefix of the original list. -/
theorem revDropRev_isPrefix (p : Char → Bool) (l : List Char) :
    (l.reverse.dropWhile p).reverse <+: l := by
  obtain ⟨u, hu⟩ := List.dropWhile_suffix (l := l.reverse) p
  refine ⟨u.reverse, ?_⟩
  have := congrArg List.reverse hu
  simpa using this

theorem head?_of_isPrefix {x y : List Char} {c : Char}
    (h : x <+: y) (hx : x.head? = some c) : y.head? = some c := by
  obtain ⟨t, ht⟩ := h
  cases x with
  | nil => simp at hx
  | cons a x' =>
    have : a = c := by simpa using hx
    subst this
    rw [← ht]
    rfl

/-- A list whose chain relation forbids adjacent hyphens has no `--` infix. -/
theorem chain_no_double_hyphen {l : List Char}
    (h : List.Chain' (fun a b => ¬ (a = '-' ∧ b = '-')) l) :
    ¬ (['-', '-'] <:+: l) := by
  rintro ⟨u, v, huv⟩
  rw [← huv] at h
  have h2 : List.Chain' (fun a b => ¬ (a = '-' ∧ b = '-')) (u ++ ['-', '-']) :=
    (List.chain'_append.mp h).1
  have h3 : List.Chain' (fun a b => ¬ (a = '-' ∧ b = '-')) ['-', '-'] :=
    (List.chain'_append.mp h2).2.1
  rw [List.chain'_cons] at h3
  exact h3.1 ⟨rfl, rfl⟩

/-- C9: the identifier emitted by `convert_skill_to_copilot` uses only
`[a-z0-9-]`, has no consecutive hyphens, no leading or trailing hyphen, and
is at most 64 characters long. -/
theorem c9_skill_name_normalization (name : List Char) :
    (∀ c ∈ normalize_skill_name name, isSkillChar c = true)
    ∧ ¬ (['-', '-'] <:+: normalize_skill_name name)
    ∧ (normalize_skill_name name).head? ≠ some '-'
    ∧ (normalize_skill_name name).getLast? ≠ some '-'
    ∧ (normalize_skill_name name).length ≤ 64 := by
  set s1 := (name.map pyToLower).map (fun c => if isSkillChar c then c else '-') with hs1
  set s2 := collapseHyphens s1 with hs2
  set a := s2.dropWhile (· == '-') with ha
  set s3 := (a.reverse.dropWhile (· == '-')).reverse with hs3
  have hs3def : pyStripChar '-' s2 = s3 := rfl
  have h_s1_chars : ∀ c ∈ s1, isSkillChar c = true := by
    intro c hc
    rw [hs1] at hc
    rcases List.mem_map.mp hc with ⟨x, _, hx⟩
    by_cases hsk : isSkillChar x = true
    · rw [← hx, if_pos hsk]; exact hsk
    · rw [← hx, if_neg hsk]; decide
  have h_s3_pre_a : s3 <+: a := revDropRev_isPrefix _ a
  have h_a_suf : a <:+ s2 := List.dropWhile_suffix _
  have h_s3_inf : s3 <:+: s2 :=
    List.IsInfix.trans h_s3_pre_a.isInfix h_a_suf.isInfix
  have h_chain := collapseHyphens_chain s1
  rw [← hs2] at h_chain
  have h_s3_head : s3.head? ≠ some '-' := by
    intro hh
    rcases hx : s3.head? with _ | c
    · rw [hx] at hh; exact Option.noConfusion hh
    · rw [hx] at hh
      have hc : c = '-' := Option.some_injective _ hh
      have : a.head? = some c := head?_of_isPrefix h_s3_pre_a hx
      have := dropWhile_head_false (· == '-') s2 c this
      subst hc
      simp at this
  have main : ∀ r : List Char, r <+: s3 →
      (∀ c ∈ r, isSkillChar c = true) ∧ ¬ (['-', '-'] <:+: r) ∧
      r.head? ≠ some '-' := by
    intro r hr
    have h_r_inf : r <:+: s2 := List.IsInfix.trans hr.isInfix h_s3_inf
    refine ⟨?_, ?_, ?_⟩
    · intro c hc
      have : c ∈ s2 := (h_r_inf.sublist).mem hc
      exact h_s1_chars c (collapseHyphens_subset s1 c this)
    · intro hdd
      exact chain_no_double_hyphen h_chain (List.IsInfix.trans hdd h_r_inf)
    · intro hh
      rcases hx : r.head? with _ | c
      · rw [hx] at hh; exact Option.noConfusion hh
      · rw [hx] at hh
        have hc : c = '-' := Option.some_injective _ hh
        have := head?_of_isPrefix hr hx
        rw [hc] at this
        exact h_s3_head this
  rw [show normalize_skill_name name =
      (if 64 < s3.length then pyRStripChar '-' (s3.take 64) else s3) by
    rw [normalize_skill_name, ← hs1, ← hs2, hs3def]]
  by_cases hlen : 64 < s3.length
  · rw [if_pos hlen]
    set r := pyRStripChar '-' (s3.take 64) with hrdef
    have hr_pre : r <+: s3.take 64 := revDropRev_isPrefix _ _
    have hr_pre3 : r <+: s3 := hr_pre.trans ⟨s3.drop 64, List.take_append_drop 64 s3⟩
    obtain ⟨m1, m2, m3⟩ := main r hr_pre3
    refine ⟨m1, m2, m3, ?_, ?_⟩
    · intro hh
      rcases hx : r.getLast? with _ | c
      · rw [hx] at hh; exact Option.noConfusion hh
      · rw [hx] at hh
        have hc : c = '-' := Option.some_injective _ hh
        have hrev : r.reverse.head? = some c := by
          rw [List.head?_reverse, hx]
        rw [hrdef, pyRStripChar, List.reverse_reverse] at hrev
        have := dropWhile_head_false (· == '-') (s3.take 64).reverse c hrev
        rw [hc] at this
        simp at this
    · calc r.length ≤ (s3.take 64).length := hr_pre.length_le
        _ ≤ 64 := by rw [List.length_take]; exact min_le_left _ _
  · rw [if_neg hlen]
    obtain ⟨m1, m2, m3⟩ := main s3 ⟨[], List.append_nil s3⟩
    refine ⟨m1, m2, m3, ?_, ?_⟩
    · intro hh
      rcases hx : s3.getLast? with _ | c
      · rw [hx] at hh; exact Option.noConfusion hh
      · rw [hx] at hh
        have hc : c = '-' := Option.some_injective _ hh
        have hrev : s3.reverse.head? = some c := by
          rw [List.head?_reverse, hx]
        rw [hs3, List.reverse_reverse] at hrev
        have := dropWhile_head_false (· == '-') a.reverse c hrev
        rw [hc] at this
        simp at this
    · omega

/-!
## Capture execution (`services/capture_service.py` lines 114-178)

One `CapturedFile` as seen by the `execute_capture` loop.  `hasAgentPath`
models the truthiness check `if cf.agent_path`; `agentRelOk` whether
`cf.agent_path.relative_to(project_path / ".agent")` succeeds (a failure
there is an uncaught exception); `agentExists` whether the recomputed
canonical destination exists; `applyResult` the outcome of the
`apply_fn(cf, ...)` call — `some b` for a normal return `b`, `none` for a
raised exception (caught by the surrounding `try`). -/
structure CFile where
  status : String
  hasAgentPath : Bool
  agentRelOk : Bool
  agentExists : Bool
  ide_name : String
  applyResult : Option Bool

/-- `_get_apply_reverse(ide_name) is not None` (capture_service.py 114-125). -/
def has_apply_reverse (ide : String) : Bool :=
  ide == "cursor" || ide == "kiro" || ide == "copilot"

/-- Per-file outcome of one iteration of the `execute_capture` loop. -/
inductive StepResult
  | captured
  | skipped
  | errored
  | uncaught
  deriving DecidableEq, Repr

/-- One iteration of the `for cf in files` loop of `execute_capture`
(lines 154-176).  The second component records whether the target's reverse
transform (`apply_fn`) was invoked, i.e. whether any canonical write could
happen for this file. -/
def capture_step (strategy : String) (cf : CFile) : StepResult × Bool :=
  if strategy == "agent_wins" && cf.status == "unchanged" then (.skipped, false)
  else if strategy == "agent_wins" && cf.hasAgentPath && !cf.agentRelOk then (.uncaught, false)
  else if strategy == "agent_wins" && cf.hasAgentPath && cf.agentExists then (.skipped, false)
  else if !(has_apply_reverse cf.ide_name) then (.errored, false)
  else
    match cf.applyResult with
    | some true => (.captured, true)
    | some false => (.skipped, true)
    | none => (.errored, true)

/-- Counts dictionary returned by `execute_capture`. -/
structure CaptureCounts where
  captured : Nat
  skipped : Nat
  errors : Nat
  deriving DecidableEq, Repr

/-- Result of `execute_capture`: `would_capture` is `some n` exactly in the
dry-run dictionary `{"dry_run": True, "would_capture": len(files), ...}`;
`applied` lists the files on which `apply_fn` was invoked (the only calls
that write under the canonical tree). -/
structure CaptureResult where
  dry_run : Bool
  would_capture : Option Nat
  counts : CaptureCounts
  applied : List CFile

/-- Fold one file into the running counts/applied-list. -/
def capture_fold (strategy : String) (acc : CaptureCounts × List CFile) (cf : CFile) :
    CaptureCounts × List CFile :=
  let r := capture_step strategy cf
  let counts := acc.1
  let counts :=
    match r.1 with
    | .captured => { counts with captured := counts.captured + 1 }
    | .skipped => { counts with skipped := counts.skipped + 1 }
    | .errored => { counts with errors := counts.errors + 1 }
    | .uncaught => counts
  (counts, if r.2 then acc.2 ++ [cf] else acc.2)

/-- `execute_capture(project_path, files, strategy, dry_run)`
(capture_service.py lines 128-178). -/
def execute_capture (strategy : String) (dry_run : Bool) (files : List CFile) :
    CaptureResult :=
  if dry_run then
    { dry_run := true, would_capture := some files.length,
      counts := ⟨0, 0, 0⟩, applied := [] }
  else
    let acc := files.foldl (capture_fold strategy) (⟨0, 0, 0⟩, [])
    { dry_run := false, would_capture := none, counts := acc.1, applied := acc.2 }

/-- C7: under `agent_wins` an `unchanged` file is skipped without invoking the
reverse transform, as is any file whose canonical destination already exists
(whatever its status); under `ide_wins` the reverse transform is invoked for
every file whose target has a reverse function, regardless of status. -/
theorem c7_conflict_strategies (cf : CFile) :
    (cf.status = "unchanged" → capture_step "agent_wins" cf = (.skipped, false))
    ∧ (cf.status ≠ "unchanged" → cf.hasAgentPath = true → cf.agentRelOk = true →
       cf.agentExists = true → capture_step "agent_wins" cf = (.skipped, false))
    ∧ (has_apply_reverse cf.ide_name = true →
       (capture_step "ide_wins" cf).2 = true) := by
  refine ⟨fun hs => ?_, fun hs hp hr he => ?_, fun hide => ?_⟩
  · simp [capture_step, hs]
  · have hs' : (cf.status == "unchanged") = false := by
      simpa using hs
    simp [capture_step, hs', hp, hr, he]
  · have h1 : ("ide_wins" == "agent_wins") = false := by decide
    rcases hres : cf.applyResult with _ | b
    · simp [capture_step, h1, hide, hres]
    · cases b <;> simp [capture_step, h1, hide, hres]

/-- Witness for C7 at concrete files. -/
theorem c7_conflict_strategies_witness :
    capture_step "agent_wins" ⟨"unchanged", true, true, false, "kiro", some true⟩
      = (.skipped, false)
    ∧ capture_step "agent_wins" ⟨"new", true, true, true, "kiro", some true⟩
      = (.skipped, false)
    ∧ (capture_step "ide_wins" ⟨"unchanged", true, true, true, "copilot", some true⟩).2 = true := by
  refine ⟨?_, ?_, ?_⟩
  · exact (c7_conflict_strategies ⟨"unchanged", true, true, false, "kiro", some true⟩).1 rfl
  · exact (c7_conflict_strategies ⟨"new", true, true, true, "kiro", some true⟩).2.1
      (by decide) rfl rfl rfl
  · exact (c7_conflict_strategies ⟨"unchanged", true, true, true, "copilot", some true⟩).2.2 rfl

/-- C8: a dry run invokes no reverse transform at all (so no file under the
canonical tree is created, deleted or rewritten by the loop) and reports
`would_capture = len(files)` with zero counts. -/
theorem c8_dry_run_frame (strategy : String) (files : List CFile) :
    (execute_capture strategy true files).applied = []
    ∧ (execute_capture strategy true files).would_capture = some files.length
    ∧ (execute_capture strategy true files).counts = ⟨0, 0, 0⟩
    ∧ (execute_capture strategy true files).dry_run = true := by
  refine ⟨rfl, rfl, rfl, rfl⟩

/-!
## Provenance manifest writing (`services/init_service.py` lines 74-169)

`_write_bridge_meta(project_path, format_names)` rebuilds the manifest from
the target output trees currently on disk.  The directory walks
(`glob("*.md")`, `iterdir()`, existence checks) are modelled by `FsState`:
each field is the list of matching entries, empty when the directory does
not exist.  Note the Python function takes no previous manifest as input:
`file_map` starts as `{}` and the file at `.agent/.bridge-meta.json` is
overwritten wholesale. -/

/-- One globbed file: its `name` and its `stem` as the source computes them
(for `*.prompt.md` / `*.instructions.md` globs the stem field holds the
`name.replace(suffix, "")` value the source derives). -/
structure FileEntry where
  name : String
  stem : String
  deriving DecidableEq

/-- One `.cursor/rules/*.mdc` file together with the frontmatter facts the
classifier reads: `parseOk` models `_parse_mdc_frontmatter` not raising,
`alwaysApply` the `alwaysApply` flag, `globsEmpty` whether
`fm.get("globs", "").strip()` is empty. -/
structure MdcRule where
  name : String
  stem : String
  parseOk : Bool
  alwaysApply : Bool
  globsEmpty : Bool
  deriving DecidableEq

/-- The directory state `_write_bridge_meta` enumerates. -/
structure FsState where
  cursorAgents : List FileEntry
  cursorRules : List MdcRule
  cursorSkills : List String
  kiroAgents : List FileEntry
  kiroSkills : List String
  kiroPrompts : List FileEntry
  kiroSteering : List FileEntry
  kiroMcp : Bool
  copilotAgents : List FileEntry
  copilotSkills : List String
  copilotPrompts : List FileEntry
  copilotInstructions : List FileEntry

/-- The `.cursor` block of `_write_bridge_meta` (lines 87-115). -/
def cursorEntries (fs : FsState) : List (String × String) :=
  (fs.cursorAgents.map fun f =>
    (".cursor/agents/" ++ f.name, ".agent/agents/" ++ f.name))
  ++ ((fs.cursorRules.filter fun r => !(r.name == "project-instructions.mdc")).map fun r =>
    (".cursor/rules/" ++ r.name,
      if r.parseOk && r.alwaysApply && r.globsEmpty then ".agent/rules/" ++ r.stem ++ ".md"
      else ".agent/skills/" ++ r.stem ++ "/SKILL.md"))
  ++ (fs.cursorSkills.map fun d =>
    (".cursor/skills/" ++ d ++ "/SKILL.md", ".agent/skills/" ++ d ++ "/SKILL.md"))

/-- The `.kiro` block of `_write_bridge_meta` (lines 117-138). -/
def kiroEntries (fs : FsState) : List (String × String) :=
  (fs.kiroAgents.map fun f =>
    (".kiro/agents/" ++ f.name, ".agent/agents/" ++ f.stem ++ ".md"))
  ++ (fs.kiroSkills.map fun d =>
    (".kiro/skills/" ++ d ++ "/SKILL.md", ".agent/skills/" ++ d ++ "/SKILL.md"))
  ++ (fs.kiroPrompts.map fun f =>
    (".kiro/prompts/" ++ f.name, ".agent/workflows/" ++ f.name))
  ++ (fs.kiroSteering.map fun f =>
    (".kiro/steering/" ++ f.name, ".agent/rules/" ++ f.name))
  ++ (if fs.kiroMcp then [(".kiro/settings/mcp.json", ".agent/mcp_config.json")] else [])

/-- The `.github` block of `_write_bridge_meta` (lines 140-161). -/
def copilotEntries (fs : FsState) : List (String × String) :=
  (fs.copilotAgents.map fun f =>
    (".github/agents/" ++ f.name, ".agent/agents/" ++ f.name))
  ++ (fs.copilotSkills.map fun d =>
    (".github/skills/" ++ d ++ "/SKILL.md", ".agent/skills/" ++ d ++ "/SKILL.md"))
  ++ (fs.copilotPrompts.map fun f =>
    (".github/prompts/" ++ f.name, ".agent/workflows/" ++ f.stem ++ ".md"))
  ++ (fs.copilotInstructions.map fun f =>
    (".github/instructions/" ++ f.name, ".agent/rules/" ++ f.stem ++ ".md"))

/-- The manifest object `_write_bridge_meta` serializes and writes over
`.agent/.bridge-meta.json`. -/
structure WrittenMeta where
  generated_at : String
  generated_for : List String
  file_map : List (String × String)

/-- `_write_bridge_meta` (init_service.py lines 74-169): the `file_map` is
built from scratch, adding a block per target in `format_names` from the
current directory state; the previous manifest is never read. -/
def write_bridge_meta (fs : FsState) (format_names : List String) (now : String) :
    WrittenMeta :=
  { generated_at := now,
    generated_for := format_names,
    file_map :=
      (if format_names.contains "cursor" then cursorEntries fs else [])
      ++ (if format_names.contains "kiro" then kiroEntries fs else [])
      ++ (if format_names.contains "copilot" then copilotEntries fs else []) }

/-- Directory state after a kiro run followed by a copilot run: the kiro
agent artifact `.kiro/agents/x.json` is still on disk. -/
def fsAfterRuns : FsState :=
  { cursorAgents := [], cursorRules := [], cursorSkills := [],
    kiroAgents := [⟨"x.json", "x"⟩], kiroSkills := [], kiroPrompts := [],
    kiroSteering := [], kiroMcp := false,
    copilotAgents := [⟨"a.md", "a"⟩], copilotSkills := [], copilotPrompts := [],
    copilotInstructions := [] }

/-- C3 counterexample: a forward run for kiro records
`.kiro/agents/x.json ↦ .agent/agents/x.md`; a later forward run for copilot
only — with the kiro artifact still on disk — writes a manifest in which that
entry is gone.  Stale `file_map` entries for targets that were not re-run are
dropped, not preserved, refuting the second half of the claim. -/
theorem c3_counterexample :
    (write_bridge_meta fsAfterRuns ["kiro"] "t0").file_map.lookup ".kiro/agents/x.json"
      = some ".agent/agents/x.md"
    ∧ (write_bridge_meta fsAfterRuns ["copilot"] "t1").file_map.lookup ".kiro/agents/x.json"
      = none
    ∧ (write_bridge_meta fsAfterRuns ["copilot"] "t1").file_map
      = [(".github/agents/a.md", ".agent/agents/a.md")] := by
  refine ⟨?_, ?_, rfl⟩ <;> decide

/-- C3 amended: on every forward run the written `file_map` is exactly the
per-target blocks rebuilt from the current directory state for the targets
in `format_names`; in particular every kiro entry from the current tree is
present when kiro ran, and when kiro did not run the manifest contains only
entries rebuilt for the other targets (any previous kiro entries are
dropped, since the previous manifest is not an input at all). -/
theorem c3_amended_rebuild (fs : FsState) (names : List String) (now : String) :
    (write_bridge_meta fs names now).file_map
      = (if names.contains "cursor" then cursorEntries fs else [])
        ++ (if names.contains "kiro" then kiroEntries fs else [])
        ++ (if names.contains "copilot" then copilotEntries fs else [])
    ∧ (names.contains "kiro" = true →
        ∀ p ∈ kiroEntries fs, p ∈ (write_bridge_meta fs names now).file_map)
    ∧ (names.contains "kiro" = false →
        ∀ p ∈ (write_bridge_meta fs names now).file_map,
          p ∈ cursorEntries fs ∨ p ∈ copilotEntries fs) := by
  refine ⟨rfl, fun hk p hp => ?_, fun hk p hp => ?_⟩
  · simp only [write_bridge_meta, hk, if_true, List.mem_append]
    exact Or.inl (Or.inr hp)
  · simp only [write_bridge_meta, hk, if_false, List.mem_append] at hp
    rcases hp with (h | h) | h
    · rcases hc : names.contains "cursor" with _ | _
      · rw [hc, if_neg (by simp)] at h
        simp at h
      · rw [hc, if_pos rfl] at h
        exact Or.inl h
    · simp at h
    · rcases hc : names.contains "copilot" with _ | _
      · rw [hc, if_neg (by simp)] at h
        simp at h
      · rw [hc, if_pos rfl] at h
        exact Or.inr h

/-- Witness for C3 amended at the concrete post-run directory state. -/
theorem c3_amended_rebuild_witness :
    ((".kiro/agents/x.json", ".agent/agents/x.md")
        ∈ (write_bridge_meta fsAfterRuns ["kiro", "copilot"] "t2").file_map)
    ∧ ∀ p ∈ (write_bridge_meta fsAfterRuns ["copilot"] "t1").file_map,
        p ∈ cursorEntries fsAfterRuns ∨ p ∈ copilotEntries fsAfterRuns := by
  refine ⟨?_, ?_⟩
  · exact (c3_amended_rebuild fsAfterRuns ["kiro", "copilot"] "t2").2.1 (by decide)
      _ (by decide)
  · exact (c3_amended_rebuild fsAfterRuns ["copilot"] "t1").2.2 (by decide)

/-!
## Size-limit truncation (`_copilot_impl.py` lines 114-150, `_kiro_impl.py` line 132)
-/

/-- `COPILOT_PROMPT_MAX_CHARS = 30000` (convert_agent_to_copilot, line 145). -/
def COPILOT_PROMPT_MAX_CHARS : Nat := 30000

/-- The visible marker appended when the agent body is cut (line 148). -/
def truncate_suffix : List Char :=
  ('\n' :: '\n' :: ("... (truncated to fit Copilot 30K char limit)".data ++ ['\n']))

/-- The body-size enforcement of `convert_agent_to_copilot` (lines 146-149):
`body[: 30000 - len(suffix)] + suffix` when over the cap. -/
def copilot_truncate_body (body : List Char) : List Char :=
  if COPILOT_PROMPT_MAX_CHARS < body.length then
    body.take (COPILOT_PROMPT_MAX_CHARS - truncate_suffix.length) ++ truncate_suffix
  else body

/-- The description cap in `generate_copilot_frontmatter` (line 121):
`description[:500] if len(description) > 500 else description`. -/
def copilot_description_cap (d : List Char) : List Char :=
  if 500 < d.length then d.take 500 else d

/-- The derived-description cap in Kiro's `extract_agent_metadata`
(line 132): `desc_match.group(1).strip()[:200]`. -/
def kiro_description_cap (d : List Char) : List Char :=
  d.take 200

/-- C4 counterexample: a 501-character description is shortened by
`generate_copilot_frontmatter` to its first 500 characters with no marker of
any kind appended — every character of the output is the character `a`, so
no human-readable truncation notice (which needs characters outside the
original text, e.g. `...` or the word `truncated`) can be present.  Content
is silently cut, refuting the claim as stated. -/
theorem c4_counterexample :
    copilot_description_cap (List.replicate 501 'a') ≠ List.replicate 501 'a'
    ∧ copilot_description_cap (List.replicate 501 'a') = List.replicate 500 'a'
    ∧ ¬ ("truncated".data <:+: copilot_description_cap (List.replicate 501 'a'))
    ∧ ¬ ("...".data <:+: copilot_description_cap (List.replicate 501 'a')) := by
  have h501 : 500 < (List.replicate 501 'a').length := by
    rw [List.length_replicate]; omega
  have heq : copilot_description_cap (List.replicate 501 'a') = List.replicate 500 'a' := by
    rw [copilot_description_cap, if_pos h501, List.take_replicate,
      show (500 : Nat) ⊓ 501 = 500 from by omega]
  refine ⟨?_, heq, ?_, ?_⟩
  · rw [heq]
    intro h
    have hlen := congrArg List.length h
    rw [List.length_replicate, List.length_replicate] at hlen
    omega
  · rw [heq]
    intro h
    have ht : 't' ∈ List.replicate 500 'a' :=
      List.Sublist.mem (by decide) h.sublist
    have := List.eq_of_mem_replicate ht
    exact absurd this (by decide)
  · rw [heq]
    intro h
    have ht : '.' ∈ List.replicate 500 'a' :=
      List.Sublist.mem (by decide) h.sublist
    have := List.eq_of_mem_replicate ht
    exact absurd this (by decide)

/-- C4 amended: the agent-body cap of `convert_agent_to_copilot` does append
a visible truncation marker whenever it shortens the body, but the derived
description caps (Copilot's 500-character cap, Kiro's 200-character cap)
are hard cuts with no marker. -/
theorem c4_amended_markers (body d e : List Char) :
    (30000 < body.length →
      truncate_suffix <:+: copilot_truncate_body body
      ∧ copilot_truncate_body body ≠ body)
    ∧ (500 < d.length → copilot_description_cap d = d.take 500)
    ∧ (200 < e.length → kiro_description_cap e = e.take 200) := by
  have hmax : COPILOT_PROMPT_MAX_CHARS = 30000 := rfl
  refine ⟨fun hb => ⟨?_, ?_⟩, fun hd => ?_, fun _ => rfl⟩
  · rw [copilot_truncate_body, if_pos (by rw [hmax]; exact hb)]
    exact (List.suffix_append _ _).isInfix
  · rw [copilot_truncate_body, if_pos (by rw [hmax]; exact hb)]
    intro h
    have hlen := congrArg List.length h
    rw [List.length_append, List.length_take, hmax] at hlen
    have hk : truncate_suffix.length ≤ 30000 := by decide
    omega
  · rw [copilot_description_cap, if_pos hd]

/-- Witness for C4 amended: a 30001-character body gets the marker; a
501-character description is cut to 500 characters. -/
theorem c4_amended_markers_witness :
    truncate_suffix <:+: copilot_truncate_body (List.replicate 30001 'a')
    ∧ copilot_description_cap (List.replicate 501 'b') = (List.replicate 501 'b').take 500 := by
  refine ⟨?_, ?_⟩
  · exact ((c4_amended_markers (List.replicate 30001 'a') [] []).1
      (by rw [List.length_replicate]; omega)).1
  · exact (c4_amended_markers [] (List.replicate 501 'b') []).2.1
      (by rw [List.length_replicate]; omega)

/-!
## Frontmatter stripping: leftmost-match characterization

The non-greedy regexes match at the earliest possible separator position;
the lemmas below pin down `firstOcc` on strings of the generated shape
`---\n <frontmatter> --- ...`.
-/

theorem isPrefixOf_true {x y : List Char} : x.isPrefixOf y = true ↔ x <+: y :=
  List.isPrefixOf_iff_prefix

theorem firstOcc_eq_of (pat : List Char) :
    ∀ (n : Nat) (s : List Char),
      (∀ i, i < n → pat.isPrefixOf (s.drop i) = false) →
      pat.isPrefixOf (s.drop n) = true → firstOcc pat s = some n := by
  intro n
  induction n with
  | zero =>
    intro s _ hat
    cases s with
    | nil => simp only [firstOcc, List.drop_zero] at hat ⊢; rw [if_pos hat]
    | cons c r => simp only [firstOcc, List.drop_zero] at hat ⊢; rw [if_pos hat]
  | succ n ih =>
    intro s hbefore hat
    cases s with
    | nil =>
      exfalso
      have h0 := hbefore 0 (Nat.succ_pos n)
      simp only [List.drop_nil] at h0 hat
      rw [h0] at hat
      exact Bool.noConfusion hat
    | cons c r =>
      have h0 := hbefore 0 (Nat.succ_pos n)
      rw [List.drop_zero] at h0
      have hrec : firstOcc pat r = some n := by
        refine ih r (fun i hi => ?_) ?_
        · have := hbefore (i + 1) (by omega)
          simpa using this
        · simpa using hat
      simp only [firstOcc, h0]
      rw [hrec]
      rfl

theorem prefix_of_append_left {pat a u : List Char}
    (h : pat <+: a ++ u) (hle : pat.length ≤ a.length) : pat <+: a := by
  obtain ⟨t, ht⟩ := h
  have h1 : pat = (a ++ u).take pat.length := by
    rw [← ht, List.take_append_of_le_length (by simp)]
    simp
  rw [List.take_append_of_le_length hle] at h1
  rw [h1]
  exact ⟨a.drop pat.length, List.take_append_drop _ a⟩

theorem not_prefixOf_within {pat P u : List Char} {i : Nat}
    (hle : i + pat.length ≤ P.length) (hnin : ¬ pat <:+: P) :
    pat.isPrefixOf ((P ++ u).drop i) = false := by
  by_contra hne
  have h : pat.isPrefixOf ((P ++ u).drop i) = true := by
    cases hb : pat.isPrefixOf ((P ++ u).drop i)
    · exact absurd hb hne
    · rfl
  have hpre : pat <+: (P ++ u).drop i := isPrefixOf_true.mp h
  rw [List.drop_append_of_le_length (by omega)] at hpre
  have hpre2 : pat <+: P.drop i :=
    prefix_of_append_left hpre (by rw [List.length_drop]; omega)
  obtain ⟨t2, ht2⟩ := hpre2
  exact hnin ⟨P.take i, t2, by rw [List.append_assoc, ht2, List.take_append_drop]⟩

theorem firstOcc_boundary (pat g u : List Char) (hp : pat ≠ [])
    (h : ¬ pat <:+: (g ++ pat.dropLast)) :
    firstOcc pat (g ++ (pat ++ u)) = some g.length := by
  refine firstOcc_eq_of pat g.length (g ++ (pat ++ u)) (fun i hi => ?_) ?_
  · have hsplit : g ++ (pat ++ u) = (g ++ pat.dropLast) ++ (pat.getLast hp :: u) := by
      conv_lhs => rw [← List.dropLast_append_getLast hp]
      simp [List.append_assoc]
    rw [hsplit]
    refine not_prefixOf_within ?_ h
    rw [List.length_append, List.length_dropLast]
    have hp1 : 1 ≤ pat.length := by
      cases pat with
      | nil => exact absurd rfl hp
      | cons a b => simp
    omega
  · rw [show (g ++ (pat ++ u)).drop g.length = pat ++ u from List.drop_left g (pat ++ u)]
    exact isPrefixOf_true.mpr ⟨u, rfl⟩

theorem stripFMSub_shape (g u : List Char)
    (h : ¬ sepNL <:+: (g ++ ['\n', '-', '-'])) :
    stripFMSub (openFM ++ (g ++ (sepNL ++ u))) = u.dropWhile (· == '\n') := by
  have hopen : openFM.isPrefixOf (openFM ++ (g ++ (sepNL ++ u))) = true :=
    isPrefixOf_true.mpr ⟨g ++ (sepNL ++ u), rfl⟩
  have hdrop4 : (openFM ++ (g ++ (sepNL ++ u))).drop 4 = g ++ (sepNL ++ u) :=
    List.drop_left openFM (g ++ (sepNL ++ u))
  have hfo : firstOcc sepNL (g ++ (sepNL ++ u)) = some g.length := by
    refine firstOcc_boundary sepNL g u (by decide) ?_
    have : sepNL.dropLast = ['\n', '-', '-'] := rfl
    rw [this]
    exact h
  rw [stripFMSub, if_pos hopen, hdrop4, hfo]
  have : (g ++ (sepNL ++ u)).drop (g.length + 4) = u := by
    have h1 : g ++ (sepNL ++ u) = (g ++ sepNL) ++ u := by rw [List.append_assoc]
    have h2 : (g ++ sepNL).length = g.length + 4 := by
      rw [List.length_append]; rfl
    rw [h1, ← h2]
    exact List.drop_left (g ++ sepNL) u
  show List.dropWhile (fun x => x == '\n') ((g ++ (sepNL ++ u)).drop (g.length + 4))
      = u.dropWhile (· == '\n')
  rw [this]

theorem matchFM_shape (g u : List Char)
    (h : ¬ closeFM <:+: (g ++ ['\n', '-', '-', '-'])) :
    matchFM (openFM ++ (g ++ (closeFM ++ u))) = some (g, g.length + 9) := by
  have hopen : openFM.isPrefixOf (openFM ++ (g ++ (closeFM ++ u))) = true :=
    isPrefixOf_true.mpr ⟨g ++ (closeFM ++ u), rfl⟩
  have hdrop4 : (openFM ++ (g ++ (closeFM ++ u))).drop 4 = g ++ (closeFM ++ u) :=
    List.drop_left openFM (g ++ (closeFM ++ u))
  have hfo : firstOcc closeFM (g ++ (closeFM ++ u)) = some g.length := by
    refine firstOcc_boundary closeFM g u (by decide) ?_
    have : closeFM.dropLast = ['\n', '-', '-', '-'] := rfl
    rw [this]
    exact h
  rw [matchFM, if_pos hopen, hdrop4, hfo]
  show some ((g ++ (closeFM ++ u)).take g.length, g.length + 9) = some (g, g.length + 9)
  rw [List.take_left g (closeFM ++ u)]

theorem dropWhile_dropWhile_of_imp (p q : Char → Bool)
    (himp : ∀ c, q c = true → p c = true) (l : List Char) :
    (l.dropWhile q).dropWhile p = l.dropWhile p := by
  induction l with
  | nil => rfl
  | cons c r ih =>
    cases hq : q c with
    | true =>
      have h1 : (c :: r).dropWhile q = r.dropWhile q := by
        rw [List.dropWhile_cons, if_pos hq]
      have h2 : (c :: r).dropWhile p = r.dropWhile p := by
        rw [List.dropWhile_cons, if_pos (himp c hq)]
      rw [h1, h2, ih]
    | false =>
      have h1 : (c :: r).dropWhile q = c :: r := by
        rw [List.dropWhile_cons, if_neg (by simp [hq])]
      rw [h1]

theorem dropWhile_eq_self_of_head (p : Char → Bool) (l : List Char)
    (h : ∀ c, l.head? = some c → p c = false) : l.dropWhile p = l := by
  cases l with
  | nil => rfl
  | cons c r =>
    rw [List.dropWhile_cons, if_neg (by simp [h c rfl])]

theorem pyStrip_prefix_dropWhile (s : List Char) :
    pyStrip s <+: s.dropWhile pySpace :=
  revDropRev_isPrefix pySpace (s.dropWhile pySpace)

theorem pyStrip_head_not_space (s : List Char) (c : Char)
    (h : (pyStrip s).head? = some c) : pySpace c = false := by
  have h2 : (s.dropWhile pySpace).head? = some c :=
    head?_of_isPrefix (pyStrip_prefix_dropWhile s) h
  exact dropWhile_head_false pySpace s c h2

theorem pyStrip_last_not_space (s : List Char) (c : Char)
    (h : (pyStrip s).reverse.head? = some c) : pySpace c = false := by
  rw [pyStrip, List.reverse_reverse] at h
  exact dropWhile_head_false pySpace (s.dropWhile pySpace).reverse c h

/-- `.strip()` of an already-stripped value followed by a single newline
recovers the value; the prepended `dropWhile` models the `\n*` tail of the
substitution regex. -/
theorem pyStrip_dropNl_strip_append (x : List Char) :
    pyStrip ((pyStrip x ++ ['\n']).dropWhile (· == '\n')) = pyStrip x := by
  cases hb : pyStrip x with
  | nil =>
    rw [List.nil_append]
    rfl
  | cons c b =>
    have hc : pySpace c = false := pyStrip_head_not_space x c (by rw [hb]; rfl)
    have hcnl : (c == '\n') = false := by
      cases hcc : c == '\n'
      · rfl
      · exfalso
        have : c = '\n' := by simpa using hcc
        rw [this] at hc
        exact Bool.noConfusion hc
    have hdw : ((c :: b) ++ ['\n']).dropWhile (· == '\n') = (c :: b) ++ ['\n'] := by
      rw [List.cons_append, List.dropWhile_cons, if_neg (by simp [hcnl])]
    rw [hdw]
    have hstep1 : ((c :: b) ++ ['\n']).dropWhile pySpace = (c :: b) ++ ['\n'] := by
      rw [List.cons_append, List.dropWhile_cons, if_neg (by simp [hc])]
    have hrev : ((c :: b) ++ ['\n']).reverse = '\n' :: (c :: b).reverse := by
      rw [List.reverse_append]
      rfl
    have hstep2 : ('\n' :: (c :: b).reverse).dropWhile pySpace
        = (c :: b).reverse.dropWhile pySpace := by
      rw [List.dropWhile_cons, if_pos (by decide)]
    have hstep3 : (c :: b).reverse.dropWhile pySpace = (c :: b).reverse := by
      refine dropWhile_eq_self_of_head pySpace (c :: b).reverse (fun d hd => ?_)
      refine pyStrip_last_not_space x d ?_
      rw [hb]
      exact hd
    rw [pyStrip, hstep1, hrev, hstep2, hstep3, List.reverse_reverse]

/-- The extracted body is a contiguous piece of the input text. -/
theorem stripFMSub_isSuffix (s : List Char) : stripFMSub s <:+ s := by
  rw [stripFMSub]
  by_cases h : openFM.isPrefixOf s = true
  · rw [if_pos h]
    cases hf : firstOcc sepNL (s.drop 4) with
    | none => exact List.suffix_rfl
    | some j =>
      refine List.IsSuffix.trans (List.dropWhile_suffix _) ?_
      exact List.IsSuffix.trans (List.drop_suffix _ _) (List.drop_suffix _ _)
  · rw [if_neg h]

theorem pyStrip_isInfix (s : List Char) : pyStrip s <:+: s :=
  List.IsInfix.trans (pyStrip_prefix_dropWhile s).isInfix
    (List.dropWhile_suffix pySpace).isInfix

/-!
## Copilot agent round trip (C1)

`convert_agent_to_copilot` (lines 137-153) writes
`f"---\n{frontmatter}---\n\n{body}\n"` where `body` is the frontmatter-
stripped, `.strip()`-ed source content (truncated only above 30000 chars)
and `frontmatter` is the `yaml.dump` output of `generate_copilot_frontmatter`
— a parameter `fm` here, which always ends in a newline and contains no line
starting with `---` (hypotheses of the theorem).
`apply_reverse_capture_copilot` (lines 460-465) recovers the body by the
same `re.sub` + `.strip()` and writes it as the canonical agent file. -/
def convert_agent_to_copilot_output (fm content : List Char) : List Char :=
  openFM ++ fm ++ ('-' :: '-' :: '-' :: '\n' :: '\n' :: []) ++
    copilot_truncate_body (pyStrip (stripFMSub content)) ++ ['\n']

/-- The `.github/agents` branch of `apply_reverse_capture_copilot`
(lines 460-465): strip any frontmatter block, `.strip()`, write the result. -/
def apply_reverse_capture_copilot_agent (content : List Char) : List Char :=
  pyStrip (stripFMSub content)

/-- C1: for an agent document whose extracted body fits the 30000-char cap,
converting to Copilot and capturing back yields exactly the stripped body of
the original document (whitespace-normalized equality with the original
body), and the captured file contains no frontmatter key that was not
already in the original text — in particular no `tools:` line. -/
theorem c1_copilot_agent_roundtrip (content g : List Char)
    (hfm : ¬ sepNL <:+: (g ++ ['\n', '-', '-']))
    (hlen : (pyStrip (stripFMSub content)).length ≤ 30000) :
    apply_reverse_capture_copilot_agent
        (convert_agent_to_copilot_output (g ++ ['\n']) content)
      = pyStrip (stripFMSub content)
    ∧ (¬ ("tools:".data <:+: content) →
      ¬ ("tools:".data <:+:
        apply_reverse_capture_copilot_agent
          (convert_agent_to_copilot_output (g ++ ['\n']) content))) := by
  have htrunc : copilot_truncate_body (pyStrip (stripFMSub content))
      = pyStrip (stripFMSub content) := by
    have hle : ¬ (COPILOT_PROMPT_MAX_CHARS < (pyStrip (stripFMSub content)).length) := by
      rw [show COPILOT_PROMPT_MAX_CHARS = 30000 from rfl]
      omega
    rw [copilot_truncate_body, if_neg hle]
  have hshape : convert_agent_to_copilot_output (g ++ ['\n']) content
      = openFM ++ (g ++ (sepNL ++ ('\n' :: '\n' :: (pyStrip (stripFMSub content) ++ ['\n'])))) := by
    rw [convert_agent_to_copilot_output, htrunc]
    simp [openFM, sepNL, List.append_assoc]
  have hmain : apply_reverse_capture_copilot_agent
      (convert_agent_to_copilot_output (g ++ ['\n']) content)
      = pyStrip (stripFMSub content) := by
    rw [apply_reverse_capture_copilot_agent, hshape, stripFMSub_shape _ _ hfm]
    rw [show ('\n' :: '\n' :: (pyStrip (stripFMSub content) ++ ['\n'])).dropWhile (· == '\n')
        = (pyStrip (stripFMSub content) ++ ['\n']).dropWhile (· == '\n') from by
      rw [List.dropWhile_cons, if_pos (by decide), List.dropWhile_cons, if_pos (by decide)]]
    exact pyStrip_dropNl_strip_append (stripFMSub content)
  refine ⟨hmain, fun htools hcontra => ?_⟩
  rw [hmain] at hcontra
  exact htools (List.IsInfix.trans hcontra
    (List.IsInfix.trans (pyStrip_isInfix _) (stripFMSub_isSuffix content).isInfix))

/-- Witness for C1: the spec's own concrete example — an orchestrator agent
whose body is `# Orchestrator\n\nYou are the coordinator agent.` — with a
representative generated frontmatter carrying a `tools:` list. -/
theorem c1_copilot_agent_roundtrip_witness :
    apply_reverse_capture_copilot_agent
        (convert_agent_to_copilot_output
          ("name: Orchestrator\ntools:\n- search/codebase".data ++ ['\n'])
          "# Orchestrator\n\nYou are the coordinator agent.".data)
      = pyStrip (stripFMSub "# Orchestrator\n\nYou are the coordinator agent.".data)
    ∧ ¬ ("tools:".data <:+:
        apply_reverse_capture_copilot_agent
          (convert_agent_to_copilot_output
            ("name: Orchestrator\ntools:\n- search/codebase".data ++ ['\n'])
            "# Orchestrator\n\nYou are the coordinator agent.".data)) := by
  have h := c1_copilot_agent_roundtrip
    "# Orchestrator\n\nYou are the coordinator agent.".data
    "name: Orchestrator\ntools:\n- search/codebase".data
    (by decide) (by decide)
  exact ⟨h.1, h.2 (by decide)⟩

/-!
## Malformed frontmatter (C5) — Kiro `extract_agent_metadata`
(`_kiro_impl.py` lines 101-138)

The function matches the delimiter block with
`re.match(r"^---\n(.*?)\n---\n", content)`, feeds the captured group to
`yaml.safe_load` inside `try/except` (a parse error is swallowed and the
metadata update skipped), and then computes the body unconditionally as
`re.sub(r"^---\n.*?\n---\n*", "", content).strip()` — the `yaml` outcome is
never consulted for the body.  `parse` below stands for `yaml.safe_load`
composed with the dict check: `none` models a raised `YAMLError` (or a
non-dict result), `some kvs` a successful parse. -/
def extract_agent_metadata_kiro
    (parse : List Char → Option (List (String × String)))
    (content : List Char) :
    Option (List (String × String)) × List Char :=
  (match matchFM content with
   | some (fmtext, _) => parse fmtext
   | none => none,
   pyStrip (stripFMSub content))

theorem pyStrip_dropWhile_nl (l : List Char) :
    pyStrip (l.dropWhile (· == '\n')) = pyStrip l := by
  have himp : ∀ c, (c == '\n') = true → pySpace c = true := by
    intro c hc
    have : c = '\n' := by simpa using hc
    rw [this]
    rfl
  rw [pyStrip, pyStrip, dropWhile_dropWhile_of_imp pySpace (· == '\n') himp l]

/-- C5 counterexample: the input opens with a well-delimited frontmatter
block `key: [` that `yaml.safe_load` rejects (unclosed flow sequence, a
`YAMLError`), modelled by instantiating the parser with `fun _ => none`.
The extracted body is `Body text` — the malformed block HAS been stripped —
not the original text unmodified, refuting the claim as stated. -/
theorem c5_counterexample :
    (extract_agent_metadata_kiro (fun _ => none)
        "---\nkey: [\n---\nBody text".data).1 = none
    ∧ (extract_agent_metadata_kiro (fun _ => none)
        "---\nkey: [\n---\nBody text".data).2 = "Body text".data
    ∧ (extract_agent_metadata_kiro (fun _ => none)
        "---\nkey: [\n---\nBody text".data).2 ≠ "---\nkey: [\n---\nBody text".data := by
  refine ⟨rfl, by decide, by decide⟩

/-- C5 amended: for any well-delimited frontmatter block, metadata
extraction never throws, the metadata taken from the block is exactly the
parser's outcome (so a parse failure leaves the frontmatter-derived
metadata at its defaults), but the body is the text after the closing
delimiter (trimmed) whether or not the block parses — the malformed block
is stripped, not kept. -/
theorem c5_amended_malformed_block
    (parse : List Char → Option (List (String × String)))
    (g rest : List Char)
    (h1 : ¬ sepNL <:+: (g ++ ['\n', '-', '-']))
    (h2 : ¬ closeFM <:+: (g ++ ['\n', '-', '-', '-'])) :
    extract_agent_metadata_kiro parse (openFM ++ (g ++ (closeFM ++ rest)))
      = (parse g, pyStrip rest) := by
  have hmatch := matchFM_shape g rest h2
  have hbody : pyStrip (stripFMSub (openFM ++ (g ++ (closeFM ++ rest)))) = pyStrip rest := by
    have hsplit : g ++ (closeFM ++ rest) = g ++ (sepNL ++ ('\n' :: rest)) := by
      simp [closeFM, sepNL]
    rw [hsplit, stripFMSub_shape g ('\n' :: rest) h1]
    rw [show ('\n' :: rest).dropWhile (· == '\n') = rest.dropWhile (· == '\n') from by
      rw [List.dropWhile_cons, if_pos (by decide)]]
    exact pyStrip_dropWhile_nl rest
  rw [extract_agent_metadata_kiro, hmatch, hbody]

/-- Witness for C5 amended: the malformed `key: [` block (parser returns
`none`) is stripped and the body is the trimmed remainder. -/
theorem c5_amended_malformed_block_witness :
    extract_agent_metadata_kiro (fun _ => none)
        (openFM ++ ("key: [".data ++ (closeFM ++ "Body text".data)))
      = (none, pyStrip "Body text".data) := by
  exact c5_amended_malformed_block (fun _ => none) "key: [".data "Body text".data
    (by decide) (by decide)
